import Mathlib

/-!
Shallow embedding of the melody-generation core of `src/music.py`
(class `MusicComposer`): the note graph construction (`_create_note_graph`),
the MIDI pitch conversion (`note_to_midi_number`) and the mood-weighted
random walk (`generate_melody`).

Python floats are modelled exactly as rationals (`ℚ`); Python's ambient
random source (`random.choice`, `random.choices`, `random.random`) is
modelled as an explicit `RandSource` record of streams; Python exceptions
are modelled with `Except`.
-/

set_option maxRecDepth 100000

namespace MusicAlg

/-- A directed graph with string-labelled nodes and rational edge weights,
kept in insertion order, embedding the `networkx.DiGraph` operations used by
`music.py` (`add_node`, `add_edge(weight=…)`, `neighbors`, `G[u][v]`). -/
structure DiGraph where
  nodes : List String
  edges : List (String × String × ℚ)
deriving DecidableEq, Repr

/-- Embeds `G.add_node u`: appends the node if absent (networkx keeps insertion order). -/
def DiGraph.addNode (g : DiGraph) (u : String) : DiGraph :=
  if u ∈ g.nodes then g else { g with nodes := g.nodes ++ [u] }

/-- Update the weight of edge `(u, v)` in place if present, else append it. -/
def setWeight : List (String × String × ℚ) → String → String → ℚ → List (String × String × ℚ)
  | [], u, v, w => [(u, v, w)]
  | e :: es, u, v, w =>
    if e.1 = u ∧ e.2.1 = v then (u, v, w) :: es else e :: setWeight es u v w

/-- Embeds `G.add_edge u v weight=w`: adds missing endpoints, then sets the weight. -/
def DiGraph.addEdge (g : DiGraph) (u v : String) (w : ℚ) : DiGraph :=
  let g := (g.addNode u).addNode v
  { g with edges := setWeight g.edges u v w }

/-- Embeds `list(G.neighbors u)`: successors of `u` in insertion order. -/
def DiGraph.neighbors (g : DiGraph) (u : String) : List String :=
  g.edges.filterMap (fun e => if e.1 = u then some e.2.1 else none)

/-- Embeds `G[u][v]['weight']`; `none` when the edge is absent. -/
def DiGraph.edgeWeight (g : DiGraph) (u v : String) : Option ℚ :=
  (g.edges.find? (fun e => e.1 == u && e.2.1 == v)).map (fun e => e.2.2)

/-- Field `self.notes` from `MusicComposer.__init__`. -/
def notesList : List String := ["C", "D", "E", "F", "G", "A", "B"]

/-- Field `self.octaves` from `MusicComposer.__init__`. -/
def octavesList : List Nat := [4, 5]

/-- The f-string `f"{note}{octave}"` forming a node label. -/
def mkNodeName (note : String) (octave : Nat) : String := note ++ toString octave

/-- Embeds `MusicComposer._create_note_graph`: all `(note, octave)` nodes, then for
each node an edge to the next and previous pitch class in the same octave
(weight 0.7) and to the same pitch class in every other octave (weight 0.3).
Python's `(i - 1) % len` is integer `emod`, hence the `Int` arithmetic. -/
def createNoteGraph (notes : List String) (octaves : List Nat) : DiGraph :=
  let g : DiGraph := ⟨[], []⟩
  let g := octaves.foldl (fun g octave =>
    notes.foldl (fun g note => g.addNode (mkNodeName note octave)) g) g
  octaves.foldl (fun g octave =>
    notes.enum.foldl (fun g p =>
      let i := p.1
      let note := p.2
      let nextIdx := (((i : ℤ) + 1) % (notes.length : ℤ)).toNat
      let prevIdx := (((i : ℤ) - 1) % (notes.length : ℤ)).toNat
      let g := g.addEdge (mkNodeName note octave)
        (mkNodeName (notes.getD nextIdx "") octave) (7/10 : ℚ)
      let g := g.addEdge (mkNodeName note octave)
        (mkNodeName (notes.getD prevIdx "") octave) (7/10 : ℚ)
      octaves.foldl (fun g other =>
        if other ≠ octave then
          g.addEdge (mkNodeName note octave) (mkNodeName note other) (3/10 : ℚ)
        else g) g) g) g

/-- Field `self.note_to_midi` from `MusicComposer.__init__` (keys are the single
characters Python reads back via `note[0]`). -/
def noteToMidiBase : List (Char × ℤ) :=
  [('C', 60), ('D', 62), ('E', 64), ('F', 65), ('G', 67), ('A', 69), ('B', 71)]

/-- The state of a `MusicComposer` instance after `__init__`. -/
structure MusicComposer where
  notes : List String
  noteToMidi : List (Char × ℤ)
  octaves : List Nat
  durations : List ℚ
  graph : DiGraph
deriving Repr

/-- Embeds `MusicComposer()`: the constructor's field assignments. -/
def MusicComposer.init : MusicComposer :=
  { notes := notesList
    noteToMidi := noteToMidiBase
    octaves := octavesList
    durations := [1/4, 1/2, 1]
    graph := createNoteGraph notesList octavesList }

/-- The single composer instance the application builds. -/
def composer : MusicComposer := MusicComposer.init

/-- The note graph the composer owns. -/
def theGraph : DiGraph := composer.graph

/-- Embeds `MusicComposer.note_to_midi_number`: `note[0]` indexes the base-pitch
dict, `int(note[1])` parses the octave digit; result
`base + (octave - 4) * 12`.  `none` models the exceptions Python raises on a
short string, a non-digit octave or a missing dict key. -/
def MusicComposer.noteToMidiNumber (c : MusicComposer) (note : String) : Option ℤ :=
  match note.data with
  | nm :: oc :: _ =>
    if oc.isDigit then
      (c.noteToMidi.find? (fun p => p.1 == nm)).map
        (fun p => p.2 + (((oc.toNat : ℤ) - ('0'.toNat : ℤ)) - 4) * 12)
    else none
  | _ => none

/-- The `mood_weights` dict in `generate_melody`: per mood, the pair
`(weight_mul, duration_pref)`; `none` models a `KeyError` lookup miss. -/
def moodWeights (mood : String) : Option (ℚ × ℚ) :=
  if mood = "happy" then some (12/10, 1/4)
  else if mood = "sad" then some (8/10, 1)
  else if mood = "energetic" then some (15/10, 1/4)
  else if mood = "calm" then some (6/10, 1/2)
  else none

/-- Python exceptions relevant here.  `keyError` is the builtin `KeyError`
raised by a dict lookup miss; `invalidArgumentError` is the error class the
specification's error taxonomy names (the source never defines or raises
it — it is included so statements about it can be expressed). -/
inductive PyErr where
  | keyError
  | invalidArgumentError
deriving DecidableEq, Repr

/-- The ambient random source: `start` drives `random.choice` over the node
list, `pick k probs` drives `random.choices(neighbors, weights=probs)` at
step `k` (an index into the neighbor list), and `unif k` is the `k`-th
`random.random()` draw. -/
structure RandSource where
  start : Nat
  pick : Nat → List ℚ → Nat
  unif : Nat → ℚ

/-- The list comprehension `[f"{note}{octave}" for note in self.notes for
octave in self.octaves]` that `random.choice` samples the start note from. -/
def allStartNodes (notes : List String) (octaves : List Nat) : List String :=
  (notes.map (fun note => octaves.map (fun octave => mkNodeName note octave))).flatten

/-- One step's transition probabilities, exactly the body of the walk loop:
each neighbor's edge weight times the mood multiplier; if the total is
strictly positive, divide each by the total, else a uniform list. -/
def stepProbs (g : DiGraph) (current : String) (mul : ℚ) : List ℚ :=
  let neighbors := g.neighbors current
  let edgeWeights := neighbors.map (fun n => ((g.edgeWeight current n).getD 0) * mul)
  let totalWeight := edgeWeights.sum
  if 0 < totalWeight then edgeWeights.map (fun w => w / totalWeight)
  else List.replicate neighbors.length ((1 : ℚ) / (neighbors.length : ℚ))

/-- The `for _ in range(length)` loop of `generate_melody`.  Each iteration
appends the current note, stops if it has no neighbors, looks the mood up in
the weights dict (a miss raises `KeyError`), normalizes the adjusted
weights, samples the next note and appends one `random.random()` intensity. -/
def genLoop (g : DiGraph) (mul? : Option ℚ) (rs : RandSource) :
    Nat → Nat → String → List String → List ℚ → Except PyErr (List String × List ℚ)
  | 0, _, _, melody, intens => .ok (melody, intens)
  | steps + 1, k, current, melody, intens =>
    let melody := melody ++ [current]
    let neighbors := g.neighbors current
    if neighbors.isEmpty then .ok (melody, intens)
    else
      match mul? with
      | none => .error .keyError
      | some mul =>
        let probs := stepProbs g current mul
        let next := neighbors.getD (rs.pick k probs % neighbors.length) ""
        genLoop g mul? rs steps (k + 1) next melody (intens ++ [rs.unif k])

/-- Embeds `MusicComposer.generate_melody(length, mood)`.  The method reads
`self.graph` and assigns no attribute, so the state-passing embedding
returns the composer alongside the result.  `length` is a Python `int`;
`range(length)` iterates `length.toNat` times. -/
def MusicComposer.generateMelody (c : MusicComposer) (length : ℤ) (mood : String)
    (rs : RandSource) : MusicComposer × Except PyErr (List String × List ℚ) :=
  let startNodes := allStartNodes c.notes c.octaves
  let current := startNodes.getD (rs.start % startNodes.length) ""
  (c, genLoop c.graph ((moodWeights mood).map Prod.fst) rs length.toNat 0 current [] [])

/-- The base-pitch map as the specification states it: C,D,E,F,G,A,B map to
60,62,64,65,67,69,71 (spec-side definition, for comparison with the code's
dict lookup). -/
def basePitch (name : String) : ℤ :=
  if name = "C" then 60
  else if name = "D" then 62
  else if name = "E" then 64
  else if name = "F" then 65
  else if name = "G" then 67
  else if name = "A" then 69
  else if name = "B" then 71
  else 0

lemma getD_mem {α : Type} (l : List α) (i : Nat) (d : α) (h : i < l.length) :
    l.getD i d ∈ l := by
  rw [List.getD_eq_getElem?_getD, List.getElem?_eq_getElem h]
  exact List.getElem_mem h

/-- Every node of the built graph has neighbors, and they are nodes again. -/
lemma theGraph_closed :
    ∀ u ∈ theGraph.nodes, theGraph.neighbors u ≠ [] ∧
      ∀ v ∈ theGraph.neighbors u, v ∈ theGraph.nodes := by decide

/-- The start-note pool lies inside the graph's node set. -/
lemma startNodes_subset :
    ∀ v ∈ allStartNodes composer.notes composer.octaves, v ∈ theGraph.nodes := by decide

lemma startNodes_length : (allStartNodes composer.notes composer.octaves).length = 14 := by decide

/-- C9: `generate_melody` never mutates the graph: the composer state coming
out of the call is the one that went in, so node set and edge weight map are
unchanged for every length, mood and random source. -/
theorem generateMelody_graph_unchanged (c : MusicComposer) (length : ℤ) (mood : String)
    (rs : RandSource) :
    ((c.generateMelody length mood rs).1).graph.nodes = c.graph.nodes ∧
    (∀ u v, ((c.generateMelody length mood rs).1).graph.edgeWeight u v = c.graph.edgeWeight u v) ∧
    (c.generateMelody length mood rs).1 = c :=
  ⟨rfl, fun _ _ => rfl, rfl⟩

/-- C8: graph construction is deterministic and idempotent: two graphs built
by `_create_note_graph` from the same name and octave sets have identical
node sets and identical edge weight maps. -/
theorem createNoteGraph_idempotent (notes : List String) (octaves : List Nat)
    (g1 g2 : DiGraph) (h1 : g1 = createNoteGraph notes octaves)
    (h2 : g2 = createNoteGraph notes octaves) :
    g1.nodes = g2.nodes ∧ ∀ u v, g1.edgeWeight u v = g2.edgeWeight u v := by
  subst h1; subst h2; exact ⟨rfl, fun _ _ => rfl⟩

theorem createNoteGraph_idempotent_witness :
    theGraph = createNoteGraph notesList octavesList ∧
    theGraph.nodes = theGraph.nodes ∧
    theGraph.edgeWeight "C4" "D4" = theGraph.edgeWeight "C4" "D4" :=
  ⟨rfl,
   (createNoteGraph_idempotent notesList octavesList theGraph theGraph rfl rfl).1,
   (createNoteGraph_idempotent notesList octavesList theGraph theGraph rfl rfl).2 "C4" "D4"⟩

/-- C4: for every node `(name_i, octave)` the outgoing edges are exactly the
step up `(name_{i+1 mod 7}, octave)` with weight 0.7, the step down
`(name_{i-1 mod 7}, octave)` with weight 0.7, and `(name_i, o')` with weight
0.3 for each other octave `o'`; out-degree lies in `[2, 2 + (|octaves|-1)]`,
there are no self-loops, and every edge weight is positive. -/
theorem noteGraph_structure (i : Nat) (octave : Nat)
    (hi : i ∈ List.range 7) (ho : octave ∈ octavesList) :
    theGraph.neighbors (mkNodeName (notesList.getD i "") octave) =
      [mkNodeName (notesList.getD ((i + 1) % 7) "") octave,
       mkNodeName (notesList.getD ((i + 6) % 7) "") octave] ++
      (octavesList.filter (fun o => o ≠ octave)).map
        (fun o => mkNodeName (notesList.getD i "") o) ∧
    theGraph.edgeWeight (mkNodeName (notesList.getD i "") octave)
      (mkNodeName (notesList.getD ((i + 1) % 7) "") octave) = some (7/10 : ℚ) ∧
    theGraph.edgeWeight (mkNodeName (notesList.getD i "") octave)
      (mkNodeName (notesList.getD ((i + 6) % 7) "") octave) = some (7/10 : ℚ) ∧
    (∀ o ∈ octavesList, o ≠ octave →
      theGraph.edgeWeight (mkNodeName (notesList.getD i "") octave)
        (mkNodeName (notesList.getD i "") o) = some (3/10 : ℚ)) ∧
    2 ≤ (theGraph.neighbors (mkNodeName (notesList.getD i "") octave)).length ∧
    (theGraph.neighbors (mkNodeName (notesList.getD i "") octave)).length ≤
      2 + (octavesList.length - 1) ∧
    (∀ e ∈ theGraph.edges, 0 < e.2.2) ∧
    (∀ e ∈ theGraph.edges, e.1 ≠ e.2.1) := by
  fin_cases hi <;> fin_cases ho <;> exact of_decide_eq_true (by with_unfolding_all rfl)

theorem noteGraph_structure_witness :
    (0 ∈ List.range 7 ∧ 4 ∈ octavesList) ∧
    (theGraph.neighbors (mkNodeName (notesList.getD 0 "") 4) =
      [mkNodeName (notesList.getD ((0 + 1) % 7) "") 4,
       mkNodeName (notesList.getD ((0 + 6) % 7) "") 4] ++
      (octavesList.filter (fun o => o ≠ 4)).map
        (fun o => mkNodeName (notesList.getD 0 "") o)) :=
  ⟨⟨by decide, by decide⟩, (noteGraph_structure 0 4 (by decide) (by decide)).1⟩

/-- C7: starting from `C4` the outgoing neighbors are exactly `D4` (0.7),
`B4` (0.7) and `C5` (0.3); mood `happy` has multiplier 1.2, and the
normalized transition probabilities are `0.84/2.04`, `0.84/2.04`,
`0.36/2.04` (≈ 0.412, 0.412, 0.176). -/
theorem c4_transition_values :
    theGraph.neighbors "C4" = ["D4", "B4", "C5"] ∧
    theGraph.edgeWeight "C4" "D4" = some (7/10 : ℚ) ∧
    theGraph.edgeWeight "C4" "B4" = some (7/10 : ℚ) ∧
    theGraph.edgeWeight "C4" "C5" = some (3/10 : ℚ) ∧
    (moodWeights "happy").map Prod.fst = some (12/10 : ℚ) ∧
    stepProbs theGraph "C4" (12/10) =
      [(84/100 : ℚ) / (204/100), (84/100 : ℚ) / (204/100), (36/100 : ℚ) / (204/100)] :=
  of_decide_eq_true (by with_unfolding_all rfl)

/-- C10: for each of the 7 pitch-class names and each octave in {4, 5},
`note_to_midi_number` returns `base_pitch[name] + (octave - 4) * 12` with
base pitches C↦60, D↦62, E↦64, F↦65, G↦67, A↦69, B↦71. -/
theorem noteToMidiNumber_correct (name : String) (octave : Nat)
    (hn : name ∈ notesList) (ho : octave ∈ octavesList) :
    composer.noteToMidiNumber (mkNodeName name octave) =
      some (basePitch name + ((octave : ℤ) - 4) * 12) := by
  fin_cases hn <;> fin_cases ho <;> decide


theorem noteToMidiNumber_correct_witness :
    ("C" ∈ notesList ∧ 5 ∈ octavesList) ∧
    composer.noteToMidiNumber (mkNodeName "C" 5) =
      some (basePitch "C" + ((5 : ℤ) - 4) * 12) :=
  ⟨⟨by decide, by decide⟩, noteToMidiNumber_correct "C" 5 (by decide) (by decide)⟩

/-- Modelled from the spec's wording of walk step 3: "Multiply every
outgoing weight by the mood's multiplier, then normalize: if the sum of
adjusted weights is strictly positive, convert to a probability distribution
by dividing each by the sum; if the sum is zero or negative (degenerate mood
multiplier), fall back to a uniform distribution over neighbors." -/
def specStepDistribution (g : DiGraph) (current : String) (mul : ℚ) : List ℚ :=
  let outgoing := (g.neighbors current).map (fun n => (g.edgeWeight current n).getD 0)
  let adjusted := outgoing.map (fun w => w * mul)
  if 0 < adjusted.sum then adjusted.map (fun w => w / adjusted.sum)
  else List.replicate (g.neighbors current).length ((1 : ℚ) / ((g.neighbors current).length : ℚ))

/-- C5: the per-step weight adjustment and normalization of the walk loop
is exactly the spec's description: weights times mood multiplier, divided by
their sum when the sum is strictly positive, and a uniform distribution over
the neighbors otherwise. -/
theorem stepProbs_refines_spec (g : DiGraph) (current : String) (mul : ℚ) :
    stepProbs g current mul = specStepDistribution g current mul := by
  unfold stepProbs specStepDistribution
  simp only [List.map_map, Function.comp_def]

lemma sum_map_mul (l : List ℚ) (m : ℚ) : (l.map (fun w => w * m)).sum = l.sum * m := by
  induction l with
  | nil => simp
  | cons a t ih => simp [ih, add_mul]

/-- Scaling every weight by a positive factor does not change the
normalize-or-uniform result. -/
lemma normalize_mul_invariant (ws : List ℚ) (n : Nat) (m1 m2 : ℚ)
    (h1 : 0 < m1) (h2 : 0 < m2) :
    (if 0 < (ws.map (fun w => w * m1)).sum then
      (ws.map (fun w => w * m1)).map (fun w => w / (ws.map (fun w => w * m1)).sum)
     else List.replicate n ((1 : ℚ) / (n : ℚ))) =
    (if 0 < (ws.map (fun w => w * m2)).sum then
      (ws.map (fun w => w * m2)).map (fun w => w / (ws.map (fun w => w * m2)).sum)
     else List.replicate n ((1 : ℚ) / (n : ℚ))) := by
  rw [sum_map_mul ws m1, sum_map_mul ws m2]
  by_cases hS : 0 < ws.sum
  · rw [if_pos (mul_pos hS h1), if_pos (mul_pos hS h2), List.map_map, List.map_map]
    refine List.map_eq_map_iff.mpr ?_
    intro a _
    show a * m1 / (ws.sum * m1) = a * m2 / (ws.sum * m2)
    rw [mul_div_mul_right a ws.sum (ne_of_gt h1), mul_div_mul_right a ws.sum (ne_of_gt h2)]
  · have hp1 : ¬ 0 < ws.sum * m1 := by
      intro hc
      rcases mul_pos_iff.mp hc with ⟨hA, _⟩ | ⟨_, hB⟩
      · exact hS hA
      · exact absurd h1 (not_lt.mpr hB.le)
    have hp2 : ¬ 0 < ws.sum * m2 := by
      intro hc
      rcases mul_pos_iff.mp hc with ⟨hA, _⟩ | ⟨_, hB⟩
      · exact hS hA
      · exact absurd h2 (not_lt.mpr hB.le)
    rw [if_neg hp1, if_neg hp2]

/-- C6: the mood multiplier is applied uniformly and then divided back out,
so any two moods with strictly positive multipliers yield the identical
normalized transition distribution at every node: the choice of next note is
mood-independent. -/
theorem stepProbs_mood_independent (g : DiGraph) (u : String) (m1 m2 : ℚ)
    (h1 : 0 < m1) (h2 : 0 < m2) : stepProbs g u m1 = stepProbs g u m2 := by
  unfold stepProbs
  dsimp only
  have hmap : ∀ m : ℚ,
      (g.neighbors u).map (fun n => ((g.edgeWeight u n).getD 0) * m) =
      ((g.neighbors u).map (fun n => (g.edgeWeight u n).getD 0)).map (fun w => w * m) := by
    intro m
    simp only [List.map_map, Function.comp_def]
  rw [hmap m1, hmap m2]
  exact normalize_mul_invariant ((g.neighbors u).map (fun n => (g.edgeWeight u n).getD 0))
    (g.neighbors u).length m1 m2 h1 h2

theorem stepProbs_mood_independent_witness :
    (0 : ℚ) < 12/10 ∧ (0 : ℚ) < 8/10 ∧
    stepProbs theGraph "C4" (12/10) = stepProbs theGraph "C4" (8/10) :=
  ⟨by norm_num, by norm_num,
   stepProbs_mood_independent theGraph "C4" (12/10) (8/10) (by norm_num) (by norm_num)⟩

/-- A concrete deterministic random source used to instantiate theorems
(start index 0, always pick neighbor 0, every uniform draw is 0). -/
def rsZero : RandSource := ⟨0, fun _ _ => 0, fun _ => 0⟩

lemma isEmpty_false_of_ne_nil {α : Type} {l : List α} (h : l ≠ []) : l.isEmpty = false := by
  cases l with
  | nil => exact absurd rfl h
  | cons a t => rfl

/-- On a graph where every node has a neighbor and neighbors are nodes, the
walk loop returns successfully, extends melody and intensities by exactly
`steps` elements each, and every appended intensity is a `unif` draw. -/
lemma genLoop_ok (g : DiGraph)
    (hg : ∀ u ∈ g.nodes, g.neighbors u ≠ [] ∧ ∀ v ∈ g.neighbors u, v ∈ g.nodes)
    (m : ℚ) (rs : RandSource) (hr : ∀ n, 0 ≤ rs.unif n ∧ rs.unif n < 1) :
    ∀ (steps k : Nat) (current : String) (melody : List String) (intens : List ℚ),
      current ∈ g.nodes → (∀ x ∈ intens, 0 ≤ x ∧ x < 1) →
      ∃ mel ints, genLoop g (some m) rs steps k current melody intens = .ok (mel, ints) ∧
        mel.length = melody.length + steps ∧ ints.length = intens.length + steps ∧
        (∀ x ∈ ints, 0 ≤ x ∧ x < 1) := by
  intro steps
  induction steps with
  | zero =>
    intro k current melody intens _ hint
    exact ⟨melody, intens, rfl, by simp, by simp, hint⟩
  | succ n ih =>
    intro k current melody intens hcur hint
    obtain ⟨hne, hsub⟩ := hg current hcur
    have hlen : 0 < (g.neighbors current).length := List.length_pos.mpr hne
    have hemp : (g.neighbors current).isEmpty = false := isEmpty_false_of_ne_nil hne
    have hnext : (g.neighbors current).getD
        (rs.pick k (stepProbs g current m) % (g.neighbors current).length) "" ∈ g.nodes :=
      hsub _ (getD_mem _ _ _ (Nat.mod_lt _ hlen))
    have hacc : ∀ x ∈ intens ++ [rs.unif k], 0 ≤ x ∧ x < 1 := by
      intro x hx
      rcases List.mem_append.mp hx with hx | hx
      · exact hint x hx
      · exact (List.mem_singleton.mp hx) ▸ hr k
    obtain ⟨mel, ints, heq, hml, hil, hir⟩ :=
      ih (k + 1) _ (melody ++ [current]) (intens ++ [rs.unif k]) hnext hacc
    refine ⟨mel, ints, ?_, ?_, ?_, hir⟩
    · show genLoop g (some m) rs (n + 1) k current melody intens = .ok (mel, ints)
      simp only [genLoop, hemp, Bool.false_eq_true, if_false]
      exact heq
    · simp only [List.length_append, List.length_singleton] at hml
      omega
    · simp only [List.length_append, List.length_singleton] at hil
      omega

/-- C1: for every positive length, valid mood and random source whose
uniform draws lie in `[0,1)`, `generate_melody` succeeds with a melody and
an intensities list of equal length at most `length`, and every intensity is
in `[0,1)`. -/
theorem generateMelody_shape (length : ℤ) (mood : String) (rs : RandSource)
    (hlen : 0 < length) (hmood : mood ∈ ["happy", "sad", "energetic", "calm"])
    (hr : ∀ n, 0 ≤ rs.unif n ∧ rs.unif n < 1) :
    ∃ mel ints, (composer.generateMelody length mood rs).2 = .ok (mel, ints) ∧
      mel.length = ints.length ∧ (mel.length : ℤ) ≤ length ∧
      ∀ x ∈ ints, 0 ≤ x ∧ x < 1 := by
  obtain ⟨q, hq⟩ : ∃ q, (moodWeights mood).map Prod.fst = some q := by
    simp only [List.mem_cons, List.not_mem_nil, or_false] at hmood
    rcases hmood with rfl | rfl | rfl | rfl
    · exact ⟨_, rfl⟩
    · exact ⟨_, rfl⟩
    · exact ⟨_, rfl⟩
    · exact ⟨_, rfl⟩
  have hstart : (allStartNodes composer.notes composer.octaves).getD
      (rs.start % (allStartNodes composer.notes composer.octaves).length) "" ∈
      theGraph.nodes := by
    apply startNodes_subset
    exact getD_mem _ _ _ (Nat.mod_lt _ (by rw [startNodes_length]; omega))
  obtain ⟨mel, ints, heq, hml, hil, hir⟩ :=
    genLoop_ok theGraph theGraph_closed q rs hr length.toNat 0 _ [] [] hstart
      (by intro x hx; exact absurd hx (List.not_mem_nil x))
  refine ⟨mel, ints, ?_, ?_, ?_, hir⟩
  · show genLoop composer.graph ((moodWeights mood).map Prod.fst) rs length.toNat 0 _ [] [] =
      .ok (mel, ints)
    rw [hq]
    exact heq
  · simp only [List.length_nil] at hml hil
    omega
  · simp only [List.length_nil] at hml
    omega

theorem generateMelody_shape_witness :
    ∃ mel ints, (composer.generateMelody 3 "happy" rsZero).2 = .ok (mel, ints) ∧
      mel.length = ints.length ∧ (mel.length : ℤ) ≤ 3 ∧
      ∀ x ∈ ints, 0 ≤ x ∧ x < 1 :=
  generateMelody_shape 3 "happy" rsZero (by decide) (by decide)
    (fun _ => ⟨of_decide_eq_true (by with_unfolding_all rfl),
               of_decide_eq_true (by with_unfolding_all rfl)⟩)

/-- C2 counterexample: at `length = 0` (and mood `happy`), `generate_melody`
does not fail with any error — it returns an empty melody and empty
intensities — refuting the claim that it raises `InvalidArgumentError`. -/
theorem generateMelody_zero_not_error :
    (composer.generateMelody 0 "happy" rsZero).2 = .ok ([], []) ∧
    (composer.generateMelody 0 "happy" rsZero).2 ≠ .error PyErr.invalidArgumentError := by
  refine ⟨rfl, ?_⟩
  intro h
  rw [show (composer.generateMelody 0 "happy" rsZero).2 = .ok ([], []) from rfl] at h
  exact Except.noConfusion h

/-- C2 (amended): for every `length ≤ 0` and any mood, `generate_melody`
returns successfully with an empty melody and an empty intensities list
(`range(length)` is empty, so no error is raised and no note is emitted). -/
theorem generateMelody_nonpos_empty (length : ℤ) (mood : String) (rs : RandSource)
    (h : length ≤ 0) :
    (composer.generateMelody length mood rs).2 = .ok ([], []) := by
  have ht : length.toNat = 0 := Int.toNat_of_nonpos h
  show genLoop composer.graph ((moodWeights mood).map Prod.fst) rs length.toNat 0 _ [] [] =
    .ok ([], [])
  rw [ht]
  simp only [genLoop]

theorem generateMelody_nonpos_empty_witness :
    (composer.generateMelody (-2) "sad" rsZero).2 = .ok ([], []) :=
  generateMelody_nonpos_empty (-2) "sad" rsZero (by decide)

/-- C3 counterexample: at `length = 1` and unknown mood `"romantic"`,
`generate_melody` raises the builtin `KeyError` (dict lookup miss), not
`InvalidArgumentError`; no melody or intensities are returned. -/
theorem generateMelody_unknown_mood_cex :
    (composer.generateMelody 1 "romantic" rsZero).2 = .error PyErr.keyError ∧
    (composer.generateMelody 1 "romantic" rsZero).2 ≠ .error PyErr.invalidArgumentError := by
  refine ⟨rfl, ?_⟩
  intro h
  rw [show (composer.generateMelody 1 "romantic" rsZero).2 = .error PyErr.keyError from rfl] at h
  injection h with h2
  exact PyErr.noConfusion h2

/-- C3 (amended): for every mood outside the four enumerated ones and every
`length > 0`, `generate_melody` fails with `KeyError` from the
`mood_weights[mood]` lookup and returns no output. -/
theorem generateMelody_unknown_mood (length : ℤ) (mood : String) (rs : RandSource)
    (hmood : mood ∉ ["happy", "sad", "energetic", "calm"]) (hlen : 0 < length) :
    (composer.generateMelody length mood rs).2 = .error PyErr.keyError := by
  have hmw : moodWeights mood = none := by
    simp only [List.mem_cons, List.not_mem_nil, or_false, not_or] at hmood
    obtain ⟨h1, h2, h3, h4⟩ := hmood
    simp [moodWeights, h1, h2, h3, h4]
  obtain ⟨n, hn⟩ : ∃ n, length.toNat = n + 1 := ⟨length.toNat - 1, by omega⟩
  have hstart : (allStartNodes composer.notes composer.octaves).getD
      (rs.start % (allStartNodes composer.notes composer.octaves).length) "" ∈
      theGraph.nodes := by
    apply startNodes_subset
    exact getD_mem _ _ _ (Nat.mod_lt _ (by rw [startNodes_length]; omega))
  have hemp : (composer.graph.neighbors ((allStartNodes composer.notes composer.octaves).getD
      (rs.start % (allStartNodes composer.notes composer.octaves).length) "")).isEmpty =
      false := isEmpty_false_of_ne_nil (theGraph_closed _ hstart).1
  show genLoop composer.graph ((moodWeights mood).map Prod.fst) rs length.toNat 0 _ [] [] =
    .error PyErr.keyError
  rw [hmw, hn]
  simp only [genLoop, hemp, Bool.false_eq_true, if_false]
  rfl

theorem generateMelody_unknown_mood_witness :
    (composer.generateMelody 2 "jazzy" rsZero).2 = .error PyErr.keyError :=
  generateMelody_unknown_mood 2 "jazzy" rsZero (by decide) (by decide)

end MusicAlg
